import Mathlib

/-!
Shallow embedding of the Turtle_stitch glyph-animation engine.

The repository contains two revisions of the same script:
* `src/unnamed/part_000` — the fuller revision: viewport-dependent base
  scale, word scaling with width- and height-fit factors, centering
  offsets, cancellation of the pending animation frame, glyph table A–N;
* `src/script.js` — the earlier revision: fixed 600×600 canvas,
  width-only word scaling, glyph table A–F, and an explicit skip branch
  in `animate` for characters without drawing data.

JavaScript numbers are embedded as exact rationals (`ℚ`): all glyph
coordinates are exact decimals, and every property proved here concerns
the exact-decimal arithmetic that the join-deduplication rule of the
source presumes.  Rendering (canvas drawing, messages) is outside the
model; only state, strokes and scheduling commands are embedded.
-/

namespace TurtleStitch

/-- A 2-D point in glyph-local data coordinates, `[x, y]` in the source. -/
abbrev Point : Type := ℚ × ℚ

/-- A line segment `[startPoint, endPoint]` of the static glyph data. -/
abbrev Segment : Type := Point × Point

/-- Shorthand to transcribe one segment `[[x1, y1], [x2, y2]]` of the table. -/
def seg (x1 y1 x2 y2 : ℚ) : Segment := ((x1, y1), (x2, y2))

/-- `X_MIN` of the logical data space. -/
def X_MIN : ℚ := -0.5
/-- `X_MAX` of the logical data space. -/
def X_MAX : ℚ := 10
/-- `Y_MIN` of the logical data space. -/
def Y_MIN : ℚ := -0.5
/-- `Y_MAX` of the logical data space. -/
def Y_MAX : ℚ := 10
/-- `DATA_RANGE_X = X_MAX - X_MIN`. -/
def DATA_RANGE_X : ℚ := X_MAX - X_MIN
/-- `DATA_RANGE_Y = Y_MAX - Y_MIN`. -/
def DATA_RANGE_Y : ℚ := Y_MAX - Y_MIN
/-- `CHAR_WIDTH_DATA_UNITS`: horizontal slot width of one character. -/
def CHAR_WIDTH_DATA_UNITS : ℚ := 7
/-- `SIZE_MULTIPLIER` from `part_000`. -/
def SIZE_MULTIPLIER : ℚ := 1.8

/-- The loop body of `interpolateSegment`: the point pushed at
interpolation factor `t`, namely
`[start[0] + t*(end[0]-start[0]), start[1] + t*(end[1]-start[1])]`. -/
def lerpAt (s e : Point) (t : ℚ) : Point :=
  (s.1 + t * (e.1 - s.1), s.2 + t * (e.2 - s.2))

/-- `interpolateSegment(segment, steps)`: points for `i = 0 .. steps`
at factor `t = i / steps`. -/
def interpolateSegment (sg : Segment) (steps : ℕ) : List Point :=
  (List.range (steps + 1)).map
    (fun i : ℕ => lerpAt sg.1 sg.2 ((i : ℚ) / (steps : ℚ)))

/-- The default value of the `steps` parameter (`steps = 20`). -/
def defaultSteps : ℕ := 20

/-- `interpolateSegment(segment)` with the `steps` parameter defaulted. -/
def interpolateSegmentD (sg : Segment) : List Point :=
  interpolateSegment sg defaultSteps

/-- One iteration of the flattening loop of `prepareAnimationForCharacter`:
append the interpolated points of the next segment to the accumulated
points, skipping the interpolation's first point when the accumulator is
nonempty, the interpolation is nonempty, and the last accumulated point
equals the interpolation's first point in both coordinates. -/
def joinSegmentPoints (acc interp : List Point) : List Point :=
  if 0 < acc.length ∧ 0 < interp.length ∧ acc.getLast? = interp.head? then
    acc ++ interp.tail
  else
    acc ++ interp

/-- One loop iteration of the flattening in
`prepareAnimationForCharacter`, as folded over the segment list. -/
def compileStep (steps : ℕ) (acc : List Point) (sg : Segment) : List Point :=
  joinSegmentPoints acc (interpolateSegment sg steps)

/-- The flattening loop of `prepareAnimationForCharacter` over a whole
segment list, with an explicit `steps` argument. -/
def compileSegments (segs : List Segment) (steps : ℕ) : List Point :=
  segs.foldl (compileStep steps) []

/-- The flattening exactly as the source runs it (default `steps = 20`). -/
def compileGlyph (segs : List Segment) : List Point :=
  compileSegments segs defaultSteps

/-- Count of dropped duplicate join points, walking the segment list with
the pen at `p` (the previous segment's end point). -/
def dupsFrom (p : Point) : List Segment → ℕ
  | [] => 0
  | sg :: rest => (if p = sg.1 then 1 else 0) + dupsFrom sg.2 rest

/-- Number of consecutive segment pairs whose join point coincides
exactly (the end of one segment equals the start of the next). -/
def dupJoins : List Segment → ℕ
  | [] => 0
  | sg :: rest => dupsFrom sg.2 rest

/-- The pen position after tracing `segs` starting from `p`. -/
def lastEnd (p : Point) : List Segment → Point
  | [] => p
  | sg :: rest => lastEnd sg.2 rest

/-- Segment list of glyph A in `CHARACTER_DRAWING_DATA` (19 segments). -/
def glyphA : List Segment := [
  seg 6 8 0 8,
  seg 0 8 0 0,
  seg 0 0 0.75 8,
  seg 0 1 1.5 8,
  seg 0 2 2.25 8,
  seg 0 3 3 8,
  seg 0 4 3.75 8,
  seg 0 5 4.5 8,
  seg 0 6 5.25 8,
  seg 0 7 6 8,
  seg 6 8 6 0,
  seg 6 0 5.25 8,
  seg 6 1 4.5 8,
  seg 6 2 3.75 8,
  seg 6 3 3 8,
  seg 6 4 2.25 8,
  seg 6 5 1.5 8,
  seg 6 6 0.75 8,
  seg 6 7 0 8]

/-- Segment list of glyph B in `CHARACTER_DRAWING_DATA` (23 segments). -/
def glyphB : List Segment := [
  seg 6 8 0 8,
  seg 0 8 0 0,
  seg 0 0 0.75 8,
  seg 0 1 1.5 8,
  seg 0 2 2.25 8,
  seg 0 3 3 8,
  seg 0 4 3.75 8,
  seg 0 5 4.5 8,
  seg 0 6 5.25 8,
  seg 0 7 6 8,
  seg 6 8 4.8 4,
  seg 6 7.2 3.6 4,
  seg 6 6.4 2.4 4,
  seg 6 5.6 1.2 4,
  seg 6 4.8 0 4,
  seg 0 4 6 4,
  seg 6 4 4.8 0,
  seg 6 3.2 3.6 0,
  seg 6 2.4 2.4 0,
  seg 6 1.6 1.2 0,
  seg 6 0.8 0 0,
  seg 0 0 6 0,
  seg 6 0 6 8]

/-- Segment list of glyph C in `CHARACTER_DRAWING_DATA` (19 segments). -/
def glyphC : List Segment := [
  seg 0 0 0 8,
  seg 0 8 6 8,
  seg 6 8 0 7,
  seg 5.25 8 0 6,
  seg 4.5 8 0 5,
  seg 3.75 8 0 4,
  seg 3 8 0 3,
  seg 2.25 8 0 2,
  seg 1.5 8 0 1,
  seg 0.75 8 0 0,
  seg 0 0 6 0,
  seg 6 0 0 1,
  seg 5.25 0 0 2,
  seg 4.5 0 0 3,
  seg 3.75 0 0 4,
  seg 3 0 0 5,
  seg 2.25 0 0 6,
  seg 1.5 0 0 7,
  seg 0.75 0 0 8]

/-- Segment list of glyph D in `CHARACTER_DRAWING_DATA` (19 segments). -/
def glyphD : List Segment := [
  seg 6 8 6 0,
  seg 6 0 0 0,
  seg 0 0 6 1,
  seg 0.75 0 6 2,
  seg 1.5 0 6 3,
  seg 2.25 0 6 4,
  seg 3 0 6 5,
  seg 3.75 0 6 6,
  seg 4.5 0 6 7,
  seg 5.25 0 6 8,
  seg 6 8 0 8,
  seg 0 8 6 7,
  seg 0.75 8 6 6,
  seg 1.5 8 6 5,
  seg 2.25 8 6 4,
  seg 3 8 6 3,
  seg 3.75 8 6 2,
  seg 4.5 8 6 1,
  seg 5.25 8 6 0]

/-- Segment list of glyph E in `CHARACTER_DRAWING_DATA` (25 segments). -/
def glyphE : List Segment := [
  seg 0 4 6 4,
  seg 6 4 0 3.6,
  seg 4.8 4 0 3.2,
  seg 3.6 4 0 2.8,
  seg 2.4 4 0 2.4,
  seg 1.2 4 0 2,
  seg 0 2 1.2 0,
  seg 0 1.6 2.4 0,
  seg 0 1.2 3.6 0,
  seg 0 0.8 4.8 0,
  seg 0 0.4 6 0,
  seg 6 0 0 0,
  seg 0 0 0 4,
  seg 0 4 0 8,
  seg 0 8 6 8,
  seg 6 8 0 7.6,
  seg 4.8 8 0 7.2,
  seg 3.6 8 0 6.8,
  seg 2.4 8 0 6.4,
  seg 1.2 8 0 6,
  seg 0 6 1.2 4,
  seg 0 5.6 2.4 4,
  seg 0 5.2 3.6 4,
  seg 0 4.8 4.8 4,
  seg 0 4.4 6 4]

/-- Segment list of glyph F in `CHARACTER_DRAWING_DATA` (15 segments). -/
def glyphF : List Segment := [
  seg 0 0 0 8,
  seg 0 8 6 8,
  seg 6 8 0 7,
  seg 5.25 8 0 6,
  seg 4.5 8 0 5,
  seg 3.75 8 0 4,
  seg 3 8 0 3,
  seg 2.25 8 0 2,
  seg 1.5 8 0 1,
  seg 0.75 8 0 0,
  seg 0 0 1.5 4,
  seg 0 1 3 4,
  seg 0 2 4.5 4,
  seg 0 3 6 4,
  seg 6 4 0 4]

/-- Segment list of glyph G in `CHARACTER_DRAWING_DATA` (22 segments). -/
def glyphG : List Segment := [
  seg 0 8 0 0,
  seg 0 0 6 0,
  seg 6 0 6 4,
  seg 6 4 3 4,
  seg 3 4 6 3,
  seg 3.75 4 6 2,
  seg 4.5 4 6 1,
  seg 5.25 4 6 0,
  seg 6 0 0 1,
  seg 5.25 0 0 2,
  seg 4.5 0 0 3,
  seg 3.75 0 0 4,
  seg 3 0 0 5,
  seg 2.25 0 0 6,
  seg 1.5 0 0 7,
  seg 0.75 0 0 8,
  seg 0 8 6 8,
  seg 6 8 0 7.2,
  seg 4.8 8 0 6.4,
  seg 3.6 8 0 5.6,
  seg 2.4 8 0 4.8,
  seg 1.2 8 0 4]

/-- Segment list of glyph H in `CHARACTER_DRAWING_DATA` (20 segments). -/
def glyphH : List Segment := [
  seg 0 4 3 4,
  seg 3 4 0 5,
  seg 2.25 4 0 6,
  seg 1.5 4 0 7,
  seg 0.75 4 0 8,
  seg 0 8 0 0,
  seg 0 0 0.75 4,
  seg 0 1 1.5 4,
  seg 0 2 2.25 4,
  seg 0 3 3 4,
  seg 3 4 6 5,
  seg 3.75 4 6 6,
  seg 4.5 4 6 7,
  seg 5.25 4 6 8,
  seg 6 8 6 0,
  seg 6 0 5.25 4,
  seg 6 1 4.5 4,
  seg 6 2 3.75 4,
  seg 6 3 3 4,
  seg 3 4 6 4]

/-- Segment list of glyph I in `CHARACTER_DRAWING_DATA` (21 segments). -/
def glyphI : List Segment := [
  seg 3 0 3 4,
  seg 3 4 2.25 0,
  seg 3 3 1.5 0,
  seg 3 2 0.75 0,
  seg 3 1 0 0,
  seg 0 0 6 0,
  seg 6 0 3 1,
  seg 5.25 0 3 2,
  seg 4.5 0 3 3,
  seg 3.75 0 3 4,
  seg 3 4 3 8,
  seg 3 8 0 8,
  seg 0 8 3 7,
  seg 0.75 8 3 6,
  seg 1.5 8 3 5,
  seg 2.25 8 3 4,
  seg 3 4 3.75 8,
  seg 3 5 4.5 8,
  seg 3 6 5.25 8,
  seg 3 7 6 8,
  seg 6 8 3 8]

/-- Segment list of glyph J in `CHARACTER_DRAWING_DATA` (10 segments). -/
def glyphJ : List Segment := [
  seg 0 0 6 0,
  seg 6 0 6 8,
  seg 6 8 5.25 0,
  seg 6 7 4.5 0,
  seg 6 6 3.75 0,
  seg 6 5 3 0,
  seg 6 4 2.25 0,
  seg 6 3 1.5 0,
  seg 6 2 0.75 0,
  seg 6 1 0 0]

/-- Segment list of glyph K in `CHARACTER_DRAWING_DATA` (13 segments). -/
def glyphK : List Segment := [
  seg 0 4 6 0,
  seg 6 0 0 3.2,
  seg 4.8 0.8 0 2.4,
  seg 3.6 1.6 0 1.6,
  seg 2.4 2.4 0 0.8,
  seg 1.2 3.2 0 0,
  seg 0 0 0 8,
  seg 0 8 1.2 4.8,
  seg 0 7.2 2.4 5.6,
  seg 0 6.4 3.6 6.4,
  seg 0 5.6 4.8 7.2,
  seg 0 4.8 6 8,
  seg 6 8 0 4]

/-- Segment list of glyph L in `CHARACTER_DRAWING_DATA` (10 segments). -/
def glyphL : List Segment := [
  seg 0 8 0 0,
  seg 0 0 6 0,
  seg 6 0 0 1,
  seg 5.25 0 0 2,
  seg 4.5 0 0 3,
  seg 3.75 0 0 4,
  seg 3 0 0 5,
  seg 2.25 0 0 6,
  seg 1.5 0 0 7,
  seg 0.75 0 0 8]

/-- Segment list of glyph M in `CHARACTER_DRAWING_DATA` (20 segments). -/
def glyphM : List Segment := [
  seg 3 4 0 8,
  seg 0 8 0 0,
  seg 0 0 0.375 7.5,
  seg 0 1 0.75 7,
  seg 0 2 1.125 6.5,
  seg 0 3 1.5 6,
  seg 0 4 1.875 5.5,
  seg 0 5 2.25 5,
  seg 0 6 2.625 4.5,
  seg 0 7 3 4,
  seg 3 4 6 8,
  seg 6 8 6 0,
  seg 6 0 5.625 7.5,
  seg 6 1 5.25 7,
  seg 6 2 4.875 6.5,
  seg 6 3 4.5 6,
  seg 6 4 4.125 5.5,
  seg 6 5 3.75 5,
  seg 6 6 3.375 4.5,
  seg 6 7 3 4]

/-- Segment list of glyph N in `CHARACTER_DRAWING_DATA` (20 segments). -/
def glyphN : List Segment := [
  seg 3 4 0 8,
  seg 0 8 0 0,
  seg 0 0 0.375 7.5,
  seg 0 1 0.75 7,
  seg 0 2 1.125 6.5,
  seg 0 3 1.5 6,
  seg 0 4 1.875 5.5,
  seg 0 5 2.25 5,
  seg 0 6 2.625 4.5,
  seg 0 7 3 4,
  seg 3 4 6 0,
  seg 6 0 6 8,
  seg 6 8 5.625 0.5,
  seg 6 7 5.25 1,
  seg 6 6 4.875 1.5,
  seg 6 5 4.5 2,
  seg 6 4 4.125 2.5,
  seg 6 3 3.75 3,
  seg 6 2 3.725 3.5,
  seg 6 1 3 4]

/-- `CHARACTER_DRAWING_DATA` of `src/unnamed/part_000` (glyphs A–N). -/
def tableP : List (Char × List Segment) :=
  [('A', glyphA), ('B', glyphB), ('C', glyphC), ('D', glyphD),
   ('E', glyphE), ('F', glyphF), ('G', glyphG), ('H', glyphH),
   ('I', glyphI), ('J', glyphJ), ('K', glyphK), ('L', glyphL),
   ('M', glyphM), ('N', glyphN)]

/-- `CHARACTER_DRAWING_DATA` of `src/script.js` (glyphs A–F; these six
entries are character-for-character identical to the ones in
`part_000`). -/
def tableS : List (Char × List Segment) :=
  [('A', glyphA), ('B', glyphB), ('C', glyphC), ('D', glyphD),
   ('E', glyphE), ('F', glyphF)]

/-- `CHARACTER_DRAWING_DATA[char]`: property lookup in the glyph table. -/
def lookupGlyph (table : List (Char × List Segment)) (c : Char) :
    Option (List Segment) :=
  (table.find? (fun e => e.1 == c)).map (fun e => e.2)

/-- `prepareAnimationForCharacter(char)` restricted to its data flow: on a
missing table entry it produces no point list (the source sets
`processedPointsForCurrentChar = []`, `totalFramesForCurrentChar = 0` and
returns `false`); otherwise it flattens all interpolated segments into
one point list (and returns `true`). -/
def prepareAnimationForCharacter (table : List (Char × List Segment))
    (c : Char) : Option (List Point) :=
  (lookupGlyph table c).map compileGlyph

/-- The point sequence the engine associates to character `c` (empty when
the character has no table entry). -/
def glyphPoints (table : List (Char × List Segment)) (c : Char) : List Point :=
  (prepareAnimationForCharacter table c).getD []

/-- The scale/offset globals read by `transformPoint` in `part_000`
(`baseScale`, `wordScaleFactor`, `centerXOffsetPixels`,
`centerYOffsetPixels`, `currentCanvasHeight`). -/
structure ViewportFit where
  baseScale : ℚ
  wordScaleFactor : ℚ
  centerXOffsetPixels : ℚ
  centerYOffsetPixels : ℚ
  currentCanvasHeight : ℚ
deriving DecidableEq

/-- `transformPoint(dataX, dataY, charXOffsetDataUnits)` of `part_000`,
with the globals it reads made an explicit argument. -/
def transformPoint (fit : ViewportFit) (dataX dataY charXOffsetDataUnits : ℚ) :
    Point :=
  let transformedDataX := dataX + charXOffsetDataUnits
  let transformedDataY := dataY
  let scaledX := (transformedDataX - X_MIN) * fit.baseScale * fit.wordScaleFactor
  let scaledY := (transformedDataY - Y_MIN) * fit.baseScale * fit.wordScaleFactor
  (scaledX + fit.centerXOffsetPixels,
   fit.currentCanvasHeight - (scaledY + fit.centerYOffsetPixels))

/-- Modelled from the spec wording of the CoordinateTransform pipeline:
add the slot offset to localX, scale both axes by base scale × word
scale factor relative to the logical-space origin, add the centering
pixel offsets, and invert the Y axis as
`pixelY = viewportHeight − (scaledY + offsetY)`. -/
def specToViewport (fit : ViewportFit) (localX localY slotOffsetX : ℚ) : Point :=
  let k := fit.baseScale * fit.wordScaleFactor
  let slottedX := localX + slotOffsetX
  let scaled : Point := ((slottedX - X_MIN) * k, (localY - Y_MIN) * k)
  let pixelX := scaled.1 + fit.centerXOffsetPixels
  let pixelY := fit.currentCanvasHeight - (scaled.2 + fit.centerYOffsetPixels)
  (pixelX, pixelY)

/-- The `baseScale` computation of `updateCanvasDimensions` in `part_000`:
zero when the smaller canvas dimension (or the data extent) is zero,
otherwise `(min dimension / max data extent) * SIZE_MULTIPLIER`. -/
def updateBaseScale (w h : ℚ) : ℚ :=
  let availableCanvasMinDimension := min w h
  let dataMaxDimension := max DATA_RANGE_X DATA_RANGE_Y
  if availableCanvasMinDimension = 0 ∨ dataMaxDimension = 0 then 0
  else availableCanvasMinDimension / dataMaxDimension * SIZE_MULTIPLIER

/-- `widthFitFactor` of `calculateWordScalingAndOffset` (`part_000`). -/
def widthFitFactor (base w : ℚ) (len : ℕ) : ℚ :=
  let baseScaledPixelWidth := (len : ℚ) * CHAR_WIDTH_DATA_UNITS * base
  if baseScaledPixelWidth > w then w / baseScaledPixelWidth * 0.95 else 1

/-- `heightFitFactor` of `calculateWordScalingAndOffset` (`part_000`). -/
def heightFitFactor (base h : ℚ) : ℚ :=
  let baseScaledPixelHeight := DATA_RANGE_Y * base
  if baseScaledPixelHeight > h then h / baseScaledPixelHeight * 0.95 else 1

/-- `wordScaleFactor` computed by `calculateWordScalingAndOffset`
(`part_000`): the minimum of the width and height fit factors. -/
def wordScaleFactorOf (base w h : ℚ) (len : ℕ) : ℚ :=
  min (widthFitFactor base w len) (heightFitFactor base h)

/-- The centering offsets computed by `calculateWordScalingAndOffset`:
`(canvas dimension − final scaled block dimension) / 2` on each axis. -/
def centerOffsetsOf (base w h : ℚ) (len : ℕ) : ℚ × ℚ :=
  let wsf := wordScaleFactorOf base w h len
  (((w - (len : ℚ) * CHAR_WIDTH_DATA_UNITS * base * wsf) / 2),
   ((h - DATA_RANGE_Y * base * wsf) / 2))

/-- A `completedCharacters` entry:
`{char, processedPoints, xOffset}` (`xOffset` in data units). -/
structure CompletedGlyph where
  char : Char
  processedPoints : List Point
  xOffset : ℚ
deriving DecidableEq

/-- The animation globals of the controller:
`wordToAnimate`, `currentWordCharIndex`, `processedPointsForCurrentChar`,
`totalFramesForCurrentChar`, `currentFrame`, `animationActive`,
`completedCharacters`. -/
structure AnimState where
  word : List Char
  idx : ℕ
  points : List Point
  totalFrames : ℕ
  frame : ℕ
  active : Bool
  completed : List CompletedGlyph
deriving DecidableEq

/-- The state effect of calling `prepareAnimationForCharacter(c)`:
on success it stores the flattened points, sets
`totalFramesForCurrentChar` to their count and resets `currentFrame`
to 0; on failure it clears the points and the frame total (leaving
`currentFrame` untouched). -/
def applyPrepare (table : List (Char × List Segment)) (s : AnimState)
    (c : Char) : AnimState :=
  match prepareAnimationForCharacter table c with
  | some pts => { s with points := pts, totalFrames := pts.length, frame := 0 }
  | none => { s with points := [], totalFrames := 0 }

/-- The controller state right after the `part_000` click handler starts a
word `w`: index 0, frame 0, no completed characters, the first
character's data prepared. -/
def startAnim (w : List Char) : AnimState :=
  applyPrepare tableP
    { word := w, idx := 0, points := [], totalFrames := 0, frame := 0,
      active := true, completed := [] } (w.headD 'A')

/-- The `completedCharacters` record `animate` pushes when the active
character finishes: its character, its full flattened point list, and
the data-unit x offset it was drawn at. -/
def pushRecord (s : AnimState) : CompletedGlyph :=
  { char := s.word.getD s.idx 'A', processedPoints := s.points,
    xOffset := (s.idx : ℚ) * CHAR_WIDTH_DATA_UNITS }

/-- The frame-advance logic of `animate` in `part_000`: on
`currentFrame >= totalFramesForCurrentChar - 1` (written here as
`frame + 1 ≥ totalFrames`, equivalent over the integers) it pushes the
completed record, advances the index, resets the frame and clears the
points, then either prepares the next character or deactivates the
animation; otherwise it increments the frame. -/
def tickAdvance (s : AnimState) : AnimState :=
  if s.frame + 1 ≥ s.totalFrames then
    if s.idx + 1 < s.word.length then
      applyPrepare tableP
        { s with completed := s.completed ++ [pushRecord s],
                 idx := s.idx + 1, frame := 0, points := [] }
        (s.word.getD (s.idx + 1) 'A')
    else
      { s with completed := s.completed ++ [pushRecord s],
               idx := s.idx + 1, frame := 0, points := [], active := false }
  else { s with frame := s.frame + 1 }

/-- One effective tick of `animate` in `part_000` (a callback invocation
with `deltaTime >= ANIMATION_INTERVAL_MS`).  It first performs the
state-mutating safeguard of `redrawCanvasContent` (prepare the current
character when its points are missing), then runs the frame-advance
logic `tickAdvance`. -/
def tick (s : AnimState) : AnimState :=
  if s.active = false then s
  else if s.idx < s.word.length then
    if s.points = [] then
      tickAdvance (applyPrepare tableP s (s.word.getD s.idx 'A'))
    else tickAdvance s
  else { s with active := false }

/-- The frame-advance logic shared by the `script.js` revision of
`animate`: push the completed record and advance, or increment the
frame. -/
def frameAdvanceS (s : AnimState) : AnimState :=
  if s.frame + 1 ≥ s.totalFrames then
    { s with completed := s.completed ++ [pushRecord s],
             idx := s.idx + 1, frame := 0, points := [] }
  else { s with frame := s.frame + 1 }

/-- One effective tick of `animate` in `src/script.js`.  When the current
character's points are missing it prepares them first; if preparation
fails (unsupported character) it skips the character: index advanced,
frame reset to 0, nothing drawn and nothing pushed, and the next frame
requested immediately.  Past the end of the word the loop keeps
redrawing the finished state. -/
def tickS (s : AnimState) : AnimState :=
  if s.active = false then s
  else if s.idx < s.word.length then
    if s.points = [] then
      match prepareAnimationForCharacter tableS (s.word.getD s.idx 'A') with
      | none => { s with idx := s.idx + 1, frame := 0, totalFrames := 0 }
      | some pts =>
          frameAdvanceS { s with points := pts, totalFrames := pts.length, frame := 0 }
    else frameAdvanceS s
  else s

/-- A command the click handler issues to the host scheduler:
`cancelAnimationFrame(id)` or `requestAnimationFrame` (with the id the
host returns). -/
inductive HostCmd where
  | cancelFrame (id : ℕ)
  | scheduleFrame (id : ℕ)
deriving DecidableEq

/-- The whole mutable global state of `part_000`: animation globals,
the stored `animationFrameId`, the host scheduler's pending callback
list (the callbacks `requestAnimationFrame` has accepted and not yet
fired or cancelled), and the scaling/centering globals. -/
structure FullState where
  anim : AnimState
  animationFrameId : Option ℕ
  pending : List ℕ
  currentCanvasWidth : ℚ
  currentCanvasHeight : ℚ
  baseScale : ℚ
  wordScaleFactor : ℚ
  centerXOffsetPixels : ℚ
  centerYOffsetPixels : ℚ
deriving DecidableEq

/-- `inputValue.trim()` on a character list. -/
def trimChars (input : List Char) : List Char :=
  ((input.dropWhile Char.isWhitespace).reverse.dropWhile Char.isWhitespace).reverse

/-- The word the click handler animates: input trimmed, upper-cased, and
filtered to characters with a `CHARACTER_DRAWING_DATA` entry. -/
def filteredWord (input : List Char) : List Char :=
  ((trimChars input).map Char.toUpper).filter
    (fun c => (lookupGlyph tableP c).isSome)

/-- The `animateButton` click handler of `part_000`, as a function of the
raw input, the viewport dimensions read by `updateCanvasDimensions`, the
id the host hands out for the new `requestAnimationFrame`, and the
previous global state.  Also returns the scheduler commands it issues,
in program order: it cancels any stored `animationFrameId` first, and
requests a new frame only on the successful path.  On an empty filtered
word it clears the word, the completed set and the scaling state; on a
nonempty word it recomputes the canvas scaling, prepares the first
character, clears the completed set and activates the loop (the inner
error branch mirrors the handler's safeguard for an unpreparable first
character, unreachable after filtering). -/
def submitHandler (input : List Char) (w h : ℚ) (newId : ℕ)
    (s : FullState) : FullState × List HostCmd :=
  let word := filteredWord input
  let cancelCmds : List HostCmd :=
    match s.animationFrameId with
    | some oldId => [HostCmd.cancelFrame oldId]
    | none => []
  let pending1 : List ℕ :=
    match s.animationFrameId with
    | some oldId => s.pending.erase oldId
    | none => s.pending
  if word = [] then
    ({ s with
        anim := { s.anim with word := [], active := false, completed := [] },
        pending := pending1,
        wordScaleFactor := 1, centerXOffsetPixels := 0,
        centerYOffsetPixels := 0 },
     cancelCmds)
  else
    let base := updateBaseScale w h
    let wsf := wordScaleFactorOf base w h word.length
    let offs := centerOffsetsOf base w h word.length
    match prepareAnimationForCharacter tableP (word.headD 'A') with
    | some pts =>
        ({ anim := { word := word, idx := 0, points := pts,
                     totalFrames := pts.length, frame := 0, active := true,
                     completed := [] },
           animationFrameId := some newId,
           pending := pending1 ++ [newId],
           currentCanvasWidth := w, currentCanvasHeight := h,
           baseScale := base, wordScaleFactor := wsf,
           centerXOffsetPixels := offs.1, centerYOffsetPixels := offs.2 },
         cancelCmds ++ [HostCmd.scheduleFrame newId])
    | none =>
        ({ s with
            anim := { word := [], idx := 0, points := [], totalFrames := 0,
                      frame := 0, active := false, completed := [] },
            pending := pending1,
            currentCanvasWidth := w, currentCanvasHeight := h,
            baseScale := base, wordScaleFactor := 1,
            centerXOffsetPixels := 0, centerYOffsetPixels := 0 },
         cancelCmds)

/-- The host firing callback `id` (the `animate` entry point of
`part_000`): a cancelled or never-scheduled id does nothing; a pending
id is consumed, and `animate` runs — if the animation flag is off it
nulls the stored id and returns, otherwise it performs one effective
tick and, when still active, stores the fresh id `nextId` it gets from
requesting the next frame. -/
def runCallback (s : FullState) (id nextId : ℕ) : FullState :=
  if id ∈ s.pending then
    let p1 := s.pending.erase id
    if s.anim.active = false then
      { s with pending := p1, animationFrameId := none }
    else
      let a1 := tick s.anim
      if a1.active then
        { s with anim := a1, pending := p1 ++ [nextId],
                 animationFrameId := some nextId }
      else { s with anim := a1, pending := p1 }
  else s

/-! ### Interpolation lemmas -/

theorem lerpAt_zero (s e : Point) : lerpAt s e 0 = s := by
  simp [lerpAt]

theorem lerpAt_one (s e : Point) : lerpAt s e 1 = e := by
  simp only [lerpAt, one_mul, Prod.ext_iff]
  exact ⟨by ring, by ring⟩

theorem interp_length (sg : Segment) (n : ℕ) :
    (interpolateSegment sg n).length = n + 1 := by
  rw [interpolateSegment, List.length_map, List.length_range]

theorem interp_ne_nil (sg : Segment) (n : ℕ) :
    interpolateSegment sg n ≠ [] := by
  have h := interp_length sg n
  intro hc
  rw [hc] at h
  simp at h

theorem interp_getElem? (sg : Segment) (n i : ℕ) (h : i < n + 1) :
    (interpolateSegment sg n)[i]? =
      some (lerpAt sg.1 sg.2 ((i : ℚ) / (n : ℚ))) := by
  rw [interpolateSegment, List.getElem?_map, List.getElem?_range h]
  rfl

theorem interp_head? (sg : Segment) (n : ℕ) :
    (interpolateSegment sg n).head? = some sg.1 := by
  have h0 : (0 : ℕ) < n + 1 := Nat.succ_pos n
  have := interp_getElem? sg n 0 h0
  rw [List.head?_eq_getElem?, this]
  norm_num [lerpAt_zero]

theorem interp_getLast? (sg : Segment) (n : ℕ) (hn : n ≠ 0) :
    (interpolateSegment sg n).getLast? = some sg.2 := by
  rw [List.getLast?_eq_getElem?, interp_length]
  have : n + 1 - 1 = n := rfl
  rw [this, interp_getElem? sg n n (Nat.lt_succ_self n)]
  rw [div_self (by exact_mod_cast hn), lerpAt_one]

theorem interp_tail_length (sg : Segment) (n : ℕ) :
    (interpolateSegment sg n).tail.length = n := by
  simp [interp_length]

/-! ### Join and flattening lemmas -/

theorem join_eq (acc interp : List Point) (ha : acc ≠ []) (hi : interp ≠ []) :
    joinSegmentPoints acc interp =
      if acc.getLast? = interp.head? then acc ++ interp.tail
      else acc ++ interp := by
  simp [joinSegmentPoints, List.length_pos, ha, hi]

theorem tail_getLast? (l : List Point) (h : l.tail ≠ []) :
    l.tail.getLast? = l.getLast? := by
  match l with
  | [] => simp at h
  | [a] => simp at h
  | a :: b :: t => simp

theorem compileStep_props (n : ℕ) (hn : n ≠ 0) (acc : List Point)
    (sg : Segment) (ha : acc ≠ []) :
    compileStep n acc sg ≠ [] ∧
    (compileStep n acc sg).head? = acc.head? ∧
    (compileStep n acc sg).getLast? = some sg.2 ∧
    (compileStep n acc sg).length + (if acc.getLast? = some sg.1 then 1 else 0)
      = acc.length + (n + 1) := by
  have htail : (interpolateSegment sg n).tail ≠ [] := by
    have := interp_tail_length sg n
    intro hc
    rw [hc] at this
    simp at this
    exact hn this.symm
  obtain ⟨a, t, rfl⟩ : ∃ a t, acc = a :: t := by
    cases acc with
    | nil => exact absurd rfl ha
    | cons a t => exact ⟨a, t, rfl⟩
  rw [compileStep, join_eq _ _ ha (interp_ne_nil sg n), interp_head? sg n]
  by_cases hd : (a :: t).getLast? = some sg.1
  · rw [if_pos hd, if_pos hd]
    refine ⟨by simp, by simp, ?_, ?_⟩
    · rw [List.getLast?_append, tail_getLast? _ htail, interp_getLast? sg n hn]
      rfl
    · have hl := interp_length sg n
      simp only [List.length_append, List.length_cons, List.length_tail]
      omega
  · rw [if_neg hd, if_neg hd]
    refine ⟨by simp, by simp, ?_, ?_⟩
    · rw [List.getLast?_append, interp_getLast? sg n hn]
      rfl
    · have hl := interp_length sg n
      simp only [List.length_append, List.length_cons]
      omega

theorem foldl_compileStep_props (n : ℕ) (hn : n ≠ 0) (segs : List Segment) :
    ∀ (acc : List Point) (p : Point), acc ≠ [] → acc.getLast? = some p →
      segs.foldl (compileStep n) acc ≠ [] ∧
      (segs.foldl (compileStep n) acc).head? = acc.head? ∧
      (segs.foldl (compileStep n) acc).getLast? = some (lastEnd p segs) ∧
      (segs.foldl (compileStep n) acc).length + dupsFrom p segs =
        acc.length + segs.length * (n + 1) := by
  induction segs with
  | nil =>
      intro acc p ha hp
      simpa [dupsFrom, lastEnd] using ⟨ha, hp⟩
  | cons sg rest ih =>
      intro acc p ha hp
      rw [List.foldl_cons]
      obtain ⟨h1, h2, h3, h4⟩ := compileStep_props n hn acc sg ha
      obtain ⟨g1, g2, g3, g4⟩ := ih (compileStep n acc sg) sg.2 h1 h3
      refine ⟨g1, g2.trans h2, ?_, ?_⟩
      · rw [g3]
        rfl
      · rw [hp] at h4
        have hlen : (sg :: rest).length * (n + 1)
            = rest.length * (n + 1) + (n + 1) := by
          rw [List.length_cons]
          ring
        rw [dupsFrom, hlen]
        by_cases hps : p = sg.1
        · simp only [hps, if_pos rfl] at h4 ⊢
          omega
        · have : ¬ (some p = some sg.1) := by simpa using hps
          rw [if_neg this] at h4
          rw [if_neg hps]
          omega

theorem compileSegments_cons_props (n : ℕ) (hn : n ≠ 0) (sg : Segment)
    (rest : List Segment) :
    compileSegments (sg :: rest) n ≠ [] ∧
    (compileSegments (sg :: rest) n).head? = some sg.1 ∧
    (compileSegments (sg :: rest) n).getLast? = some (lastEnd sg.2 rest) ∧
    (compileSegments (sg :: rest) n).length + dupJoins (sg :: rest) =
      (sg :: rest).length * (n + 1) := by
  have hstep : compileStep n [] sg = interpolateSegment sg n := by
    simp [compileStep, joinSegmentPoints]
  rw [compileSegments, List.foldl_cons, hstep]
  obtain ⟨g1, g2, g3, g4⟩ :=
    foldl_compileStep_props n hn rest (interpolateSegment sg n) sg.2
      (interp_ne_nil sg n) (interp_getLast? sg n hn)
  refine ⟨g1, ?_, g3, ?_⟩
  · rw [g2, interp_head?]
  · rw [interp_length] at g4
    have hlen : (sg :: rest).length * (n + 1)
        = rest.length * (n + 1) + (n + 1) := by
      rw [List.length_cons]
      ring
    rw [dupJoins, hlen]
    omega

theorem dupsFrom_le (p : Point) (segs : List Segment) :
    dupsFrom p segs ≤ segs.length := by
  induction segs generalizing p with
  | nil => simp [dupsFrom]
  | cons sg rest ih =>
      rw [dupsFrom, List.length_cons]
      have := ih sg.2
      by_cases hps : p = sg.1
      · rw [if_pos hps]
        omega
      · rw [if_neg hps]
        omega

theorem compileSegments_length (n : ℕ) (hn : n ≠ 0) (segs : List Segment) :
    (compileSegments segs n).length = segs.length * (n + 1) - dupJoins segs := by
  cases segs with
  | nil => simp [compileSegments, dupJoins]
  | cons sg rest =>
      obtain ⟨-, -, -, h4⟩ := compileSegments_cons_props n hn sg rest
      omega

/-! ### Glyph-table lemmas -/

theorem tableP_entries_ne_nil : ∀ e ∈ tableP, e.2 ≠ [] := by
  decide

theorem lookupP_segs_ne_nil (c : Char) (segs : List Segment)
    (h : lookupGlyph tableP c = some segs) : segs ≠ [] := by
  rw [lookupGlyph, Option.map_eq_some'] at h
  obtain ⟨e, he, rfl⟩ := h
  exact tableP_entries_ne_nil e (List.mem_of_find?_eq_some he)

theorem glyphPoints_eq (table : List (Char × List Segment)) (c : Char)
    (segs : List Segment) (h : lookupGlyph table c = some segs) :
    glyphPoints table c = compileGlyph segs := by
  simp [glyphPoints, prepareAnimationForCharacter, h]

theorem compileGlyph_cons_props (sg : Segment) (rest : List Segment) :
    compileGlyph (sg :: rest) ≠ [] ∧
    defaultSteps + 1 ≤ (compileGlyph (sg :: rest)).length ∧
    (compileGlyph (sg :: rest)).head? = some sg.1 ∧
    (compileGlyph (sg :: rest)).getLast? = some (lastEnd sg.2 rest) := by
  obtain ⟨h1, h2, h3, h4⟩ :=
    compileSegments_cons_props defaultSteps (by decide) sg rest
  refine ⟨h1, ?_, h2, h3⟩
  have hd : dupJoins (sg :: rest) ≤ rest.length := dupsFrom_le sg.2 rest
  have hds : (defaultSteps : ℕ) = 20 := rfl
  rw [List.length_cons, hds] at h4
  show defaultSteps + 1 ≤ (compileSegments (sg :: rest) defaultSteps).length
  rw [hds]
  omega

theorem glyphPointsP_props (c : Char) (h : (lookupGlyph tableP c).isSome) :
    glyphPoints tableP c ≠ [] ∧
    defaultSteps + 1 ≤ (glyphPoints tableP c).length := by
  obtain ⟨segs, hsegs⟩ := Option.isSome_iff_exists.mp h
  obtain ⟨sg, rest, rfl⟩ : ∃ sg rest, segs = sg :: rest := by
    cases segs with
    | nil => exact absurd rfl (lookupP_segs_ne_nil c [] hsegs)
    | cons sg rest => exact ⟨sg, rest, rfl⟩
  rw [glyphPoints_eq tableP c _ hsegs]
  obtain ⟨h1, h2, -, -⟩ := compileGlyph_cons_props sg rest
  exact ⟨h1, h2⟩

theorem lastEnd_cons_eq (sg : Segment) (rest : List Segment) :
    ((sg :: rest).getLast?).map Prod.snd = some (lastEnd sg.2 rest) := by
  induction rest generalizing sg with
  | nil => rfl
  | cons sg2 rest2 ih =>
      rw [List.getLast?_cons_cons, ih sg2]
      rfl

/-! ### Claim C1 -/

/-- Claim C1: for every segment and every stepCount `n ≥ 1`,
`interpolateSegment(segment, n)` returns exactly `n + 1` points; point
`i` (for `i ≤ n`) is the linear interpolation at parameter `t = i / n`;
point 0 equals `segment.start` and point `n` equals `segment.end`; the
default stepCount is 20 and the same default is used for every
segment. -/
theorem claim_C1_interpolate (sg : Segment) (n i : ℕ) (hn : 1 ≤ n)
    (hi : i ≤ n) :
    (interpolateSegment sg n).length = n + 1 ∧
    (interpolateSegment sg n)[i]? =
      some (lerpAt sg.1 sg.2 ((i : ℚ) / (n : ℚ))) ∧
    (interpolateSegment sg n)[0]? = some sg.1 ∧
    (interpolateSegment sg n)[n]? = some sg.2 ∧
    defaultSteps = 20 ∧
    interpolateSegmentD sg = interpolateSegment sg 20 := by
  have hn0 : n ≠ 0 := by omega
  refine ⟨interp_length sg n, interp_getElem? sg n i (by omega), ?_, ?_,
    rfl, rfl⟩
  · rw [interp_getElem? sg n 0 (by omega)]
    norm_num [lerpAt_zero]
  · rw [interp_getElem? sg n n (by omega), div_self (by exact_mod_cast hn0),
      lerpAt_one]

/-- Witness for C1: the segment from (0, 0) to (2, 1) with `n = 2`,
`i = 1`. -/
theorem claim_C1_interpolate_witness :
    1 ≤ 2 ∧ 1 ≤ 2 ∧
    ((interpolateSegment (seg 0 0 2 1) 2).length = 2 + 1 ∧
     (interpolateSegment (seg 0 0 2 1) 2)[1]? =
       some (lerpAt (seg 0 0 2 1).1 (seg 0 0 2 1).2 ((1 : ℚ) / (2 : ℚ))) ∧
     (interpolateSegment (seg 0 0 2 1) 2)[0]? = some (seg 0 0 2 1).1 ∧
     (interpolateSegment (seg 0 0 2 1) 2)[2]? = some (seg 0 0 2 1).2 ∧
     defaultSteps = 20 ∧
     interpolateSegmentD (seg 0 0 2 1) = interpolateSegment (seg 0 0 2 1) 20) :=
  ⟨by norm_num, by norm_num,
   claim_C1_interpolate (seg 0 0 2 1) 2 1 (by norm_num) (by norm_num)⟩

/-! ### Claim C2 -/

/-- Claim C2: for every glyph present in the `part_000` glyph table,
the compiler concatenates the per-segment interpolations in segment
order, dropping a segment interpolation's first point exactly when it
equals the last point already emitted (shown by the loop-step equation
for any nonempty accumulator), and consequently the output length equals
the number of segments times `stepCount + 1` minus one for every
consecutive segment pair whose join point coincides exactly. -/
theorem claim_C2_compile_length (c : Char) (segs : List Segment)
    (acc : List Point) (sg : Segment)
    (h : lookupGlyph tableP c = some segs) (ha : acc ≠ []) :
    compileStep defaultSteps acc sg =
      (if acc.getLast? = some sg.1 then acc ++ (interpolateSegmentD sg).tail
       else acc ++ interpolateSegmentD sg) ∧
    (compileGlyph segs).length =
      segs.length * (defaultSteps + 1) - dupJoins segs := by
  constructor
  · rw [compileStep, join_eq _ _ ha (interp_ne_nil sg defaultSteps),
      interp_head?]
    rfl
  · exact compileSegments_length defaultSteps (by decide) segs

/-- Witness for C2: glyph J of the table, with a one-point accumulator. -/
theorem claim_C2_compile_length_witness :
    lookupGlyph tableP 'J' = some glyphJ ∧ [((0 : ℚ), (0 : ℚ))] ≠ [] ∧
    (compileStep defaultSteps [((0 : ℚ), (0 : ℚ))] (seg 0 0 6 0) =
      (if [((0 : ℚ), (0 : ℚ))].getLast? = some (seg 0 0 6 0).1 then
        [((0 : ℚ), (0 : ℚ))] ++ (interpolateSegmentD (seg 0 0 6 0)).tail
       else [((0 : ℚ), (0 : ℚ))] ++ interpolateSegmentD (seg 0 0 6 0)) ∧
     (compileGlyph glyphJ).length =
       glyphJ.length * (defaultSteps + 1) - dupJoins glyphJ) :=
  ⟨by with_unfolding_all decide, by decide,
   claim_C2_compile_length 'J' glyphJ [((0 : ℚ), (0 : ℚ))] (seg 0 0 6 0)
     (by with_unfolding_all decide) (by decide)⟩

/-! ### Claim C10 -/

/-- Claim C10: every character with an entry in the `part_000` glyph
table compiles to a nonempty point sequence of at least
`stepCount + 1` points whose first point is the first segment's start
point and whose last point is the last segment's end point (so the
controller's empty-sequence safeguards are unreachable for words built
from table characters, every active glyph having at least one frame). -/
theorem claim_C10_table_glyphs (c : Char) (segs : List Segment)
    (h : lookupGlyph tableP c = some segs) :
    segs ≠ [] ∧
    glyphPoints tableP c = compileGlyph segs ∧
    compileGlyph segs ≠ [] ∧
    defaultSteps + 1 ≤ (compileGlyph segs).length ∧
    (compileGlyph segs).head? = segs.head?.map Prod.fst ∧
    (compileGlyph segs).getLast? = segs.getLast?.map Prod.snd := by
  have hne : segs ≠ [] := lookupP_segs_ne_nil c segs h
  obtain ⟨sg, rest, rfl⟩ : ∃ sg rest, segs = sg :: rest := by
    cases segs with
    | nil => exact absurd rfl hne
    | cons sg rest => exact ⟨sg, rest, rfl⟩
  obtain ⟨h1, h2, h3, h4⟩ := compileGlyph_cons_props sg rest
  refine ⟨hne, glyphPoints_eq tableP c _ h, h1, h2, ?_, ?_⟩
  · rw [h3]
    rfl
  · rw [h4, lastEnd_cons_eq]

/-- Witness for C10: glyph J of the table. -/
theorem claim_C10_table_glyphs_witness :
    lookupGlyph tableP 'J' = some glyphJ ∧
    (glyphJ ≠ [] ∧
     glyphPoints tableP 'J' = compileGlyph glyphJ ∧
     compileGlyph glyphJ ≠ [] ∧
     defaultSteps + 1 ≤ (compileGlyph glyphJ).length ∧
     (compileGlyph glyphJ).head? = glyphJ.head?.map Prod.fst ∧
     (compileGlyph glyphJ).getLast? = glyphJ.getLast?.map Prod.snd) :=
  ⟨by with_unfolding_all decide,
   claim_C10_table_glyphs 'J' glyphJ (by with_unfolding_all decide)⟩

/-! ### Claim C6 -/

/-- Claim C6: `transformPoint(localX, localY, slotOffsetX)` adds the
glyph's horizontal slot offset to localX, applies base scale × word
scale factor to both axes relative to the logical-space origin, adds the
centering pixel offsets, and inverts the Y axis as
`pixelY = viewportHeight − (scaledY + offsetY)`; it is a pure function
of the `ViewportFit` state and the inputs (its embedding takes them as
its only arguments), shown by its equality with the spec-side pipeline
`specToViewport` and by the two closed-form coordinate equations. -/
theorem claim_C6_transformPoint (fit : ViewportFit) (x y off : ℚ) :
    transformPoint fit x y off = specToViewport fit x y off ∧
    (transformPoint fit x y off).1 =
      (x + off - X_MIN) * fit.baseScale * fit.wordScaleFactor
        + fit.centerXOffsetPixels ∧
    (transformPoint fit x y off).2 =
      fit.currentCanvasHeight -
        ((y - Y_MIN) * fit.baseScale * fit.wordScaleFactor
          + fit.centerYOffsetPixels) := by
  refine ⟨?_, rfl, rfl⟩
  simp only [transformPoint, specToViewport, Prod.ext_iff]
  exact ⟨by ring, by ring⟩

/-! ### Claim C8 -/

/-- Claim C8: whenever both viewport dimensions are positive, the base
scale equals the smaller viewport dimension divided by the larger
logical-space extent, times the size multiplier; if either dimension is
0 the base scale is 0 (so nothing renders) with no division-by-zero
failure. -/
theorem claim_C8_baseScale (w h : ℚ) (hw : 0 ≤ w) (hh : 0 ≤ h) :
    ((w = 0 ∨ h = 0) → updateBaseScale w h = 0) ∧
    (0 < w → 0 < h →
      updateBaseScale w h =
        min w h / max DATA_RANGE_X DATA_RANGE_Y * SIZE_MULTIPLIER) := by
  constructor
  · rintro (rfl | rfl)
    · have hm : min (0 : ℚ) h = 0 := min_eq_left hh
      simp only [updateBaseScale, hm, eq_self_iff_true, true_or, if_pos]
    · have hm : min w (0 : ℚ) = 0 := min_eq_right hw
      simp only [updateBaseScale, hm, eq_self_iff_true, true_or, if_pos]
  · intro hw0 hh0
    have hmin : ¬ (min w h = 0 ∨ max DATA_RANGE_X DATA_RANGE_Y = 0) := by
      push_neg
      constructor
      · exact ne_of_gt (lt_min hw0 hh0)
      · norm_num [DATA_RANGE_X, DATA_RANGE_Y, X_MAX, X_MIN, Y_MAX, Y_MIN]
    simp only [updateBaseScale, if_neg hmin]

/-- Witness for C8 at viewport 4 × 0 (degenerate height). -/
theorem claim_C8_baseScale_witness :
    (0 : ℚ) ≤ 4 ∧ (0 : ℚ) ≤ 0 ∧
    ((((4 : ℚ) = 0 ∨ (0 : ℚ) = 0) → updateBaseScale 4 0 = 0) ∧
     (0 < (4 : ℚ) → 0 < (0 : ℚ) →
       updateBaseScale 4 0 =
         min 4 0 / max DATA_RANGE_X DATA_RANGE_Y * SIZE_MULTIPLIER)) :=
  ⟨by norm_num, le_refl 0, claim_C8_baseScale 4 0 (by norm_num) (le_refl 0)⟩

/-! ### Claim C5 -/

theorem widthFitFactor_le_one (base w : ℚ) (hw : 0 ≤ w) (len : ℕ) :
    widthFitFactor base w len ≤ 1 := by
  rw [widthFitFactor]
  split
  · rename_i hgt
    have hbw : (0 : ℚ) < (len : ℚ) * CHAR_WIDTH_DATA_UNITS * base :=
      lt_of_le_of_lt hw hgt
    have h1 : w / ((len : ℚ) * CHAR_WIDTH_DATA_UNITS * base) ≤ 1 :=
      le_of_lt ((div_lt_one hbw).mpr hgt)
    have h0 : (0 : ℚ) ≤ w / ((len : ℚ) * CHAR_WIDTH_DATA_UNITS * base) :=
      div_nonneg hw (le_of_lt hbw)
    nlinarith
  · exact le_refl 1

theorem widthFitFactor_lt_one (base w : ℚ) (hw : 0 ≤ w) (len : ℕ)
    (hgt : (len : ℚ) * CHAR_WIDTH_DATA_UNITS * base > w) :
    widthFitFactor base w len < 1 := by
  rw [widthFitFactor, if_pos hgt]
  have hbw : (0 : ℚ) < (len : ℚ) * CHAR_WIDTH_DATA_UNITS * base :=
    lt_of_le_of_lt hw hgt
  have h1 : w / ((len : ℚ) * CHAR_WIDTH_DATA_UNITS * base) < 1 :=
    (div_lt_one hbw).mpr hgt
  have h0 : (0 : ℚ) ≤ w / ((len : ℚ) * CHAR_WIDTH_DATA_UNITS * base) :=
    div_nonneg hw (le_of_lt hbw)
  nlinarith

theorem heightFitFactor_le_one (base h : ℚ) (hh : 0 ≤ h) :
    heightFitFactor base h ≤ 1 := by
  rw [heightFitFactor]
  split
  · rename_i hgt
    have hbh : (0 : ℚ) < DATA_RANGE_Y * base := lt_of_le_of_lt hh hgt
    have h1 : h / (DATA_RANGE_Y * base) ≤ 1 :=
      le_of_lt ((div_lt_one hbh).mpr hgt)
    have h0 : (0 : ℚ) ≤ h / (DATA_RANGE_Y * base) :=
      div_nonneg hh (le_of_lt hbh)
    nlinarith
  · exact le_refl 1

theorem heightFitFactor_lt_one (base h : ℚ) (hh : 0 ≤ h)
    (hgt : DATA_RANGE_Y * base > h) : heightFitFactor base h < 1 := by
  rw [heightFitFactor, if_pos hgt]
  have hbh : (0 : ℚ) < DATA_RANGE_Y * base := lt_of_le_of_lt hh hgt
  have h1 : h / (DATA_RANGE_Y * base) < 1 := (div_lt_one hbh).mpr hgt
  have h0 : (0 : ℚ) ≤ h / (DATA_RANGE_Y * base) :=
    div_nonneg hh (le_of_lt hbh)
  nlinarith

theorem widthFitFactor_antitone (base w : ℚ) (hb : 0 ≤ base) (hw : 0 ≤ w)
    (len1 len2 : ℕ) (hlen : len1 ≤ len2) :
    widthFitFactor base w len2 ≤ widthFitFactor base w len1 := by
  have hbw : (len1 : ℚ) * CHAR_WIDTH_DATA_UNITS * base ≤
      (len2 : ℚ) * CHAR_WIDTH_DATA_UNITS * base := by
    have h7 : (0 : ℚ) ≤ CHAR_WIDTH_DATA_UNITS := by norm_num [CHAR_WIDTH_DATA_UNITS]
    have : (len1 : ℚ) ≤ (len2 : ℚ) := by exact_mod_cast hlen
    gcongr
  rw [widthFitFactor, widthFitFactor]
  split
  · rename_i h2
    split
    · rename_i h1
      have hb1 : (0 : ℚ) < (len1 : ℚ) * CHAR_WIDTH_DATA_UNITS * base :=
        lt_of_le_of_lt hw h1
      have : w / ((len2 : ℚ) * CHAR_WIDTH_DATA_UNITS * base) ≤
          w / ((len1 : ℚ) * CHAR_WIDTH_DATA_UNITS * base) := by
        gcongr
      nlinarith
    · rename_i h1
      have hbw2 : (0 : ℚ) < (len2 : ℚ) * CHAR_WIDTH_DATA_UNITS * base :=
        lt_of_le_of_lt hw h2
      have hle : w / ((len2 : ℚ) * CHAR_WIDTH_DATA_UNITS * base) ≤ 1 :=
        le_of_lt ((div_lt_one hbw2).mpr h2)
      have h0 : (0 : ℚ) ≤ w / ((len2 : ℚ) * CHAR_WIDTH_DATA_UNITS * base) :=
        div_nonneg hw (le_of_lt hbw2)
      nlinarith
  · rename_i h2
    split
    · rename_i h1
      exact absurd (lt_of_lt_of_le h1 hbw) h2
    · exact le_refl 1

/-- Counterexample to Claim C5 as stated: at viewport 600 × 10, with the
base scale `updateCanvasDimensions` computes for it, a one-character word
needs only 12 pixels of width — not more than the 600 available — yet
its word scale factor is below 1 (the height-fit branch shrinks it). -/
theorem claim_C5_counterexample :
    wordScaleFactorOf (updateBaseScale 600 10) 600 10 1 < 1 ∧
    ¬ ((1 : ℚ) * CHAR_WIDTH_DATA_UNITS * updateBaseScale 600 10 > 600) := by
  constructor
  · with_unfolding_all decide
  · with_unfolding_all decide

/-- Claim C5 as amended: for a fixed viewport and nonnegative base scale,
the word scale factor is never above 1 and increasing the word length
never increases it; it drops below 1 exactly when the base-scaled block
exceeds the viewport on **either** axis — when the required width
(word length × slot width × base scale) exceeds the available width,
or the required height (`DATA_RANGE_Y` × base scale) exceeds the
available height. -/
theorem claim_C5_wordScale_amended (base w h : ℚ) (len1 len2 : ℕ)
    (hb : 0 ≤ base) (hw : 0 ≤ w) (hh : 0 ≤ h) (hlen : len1 ≤ len2) :
    wordScaleFactorOf base w h len1 ≤ 1 ∧
    wordScaleFactorOf base w h len2 ≤ wordScaleFactorOf base w h len1 ∧
    (wordScaleFactorOf base w h len1 < 1 ↔
      ((len1 : ℚ) * CHAR_WIDTH_DATA_UNITS * base > w ∨
        DATA_RANGE_Y * base > h)) := by
  refine ⟨?_, ?_, ?_, ?_⟩
  · exact le_trans (min_le_left _ _) (widthFitFactor_le_one base w hw len1)
  · exact min_le_min (widthFitFactor_antitone base w hb hw len1 len2 hlen)
      (le_refl _)
  · intro hlt
    by_contra hc
    push_neg at hc
    obtain ⟨hc1, hc2⟩ := hc
    rw [wordScaleFactorOf, widthFitFactor, if_neg (not_lt.mpr hc1),
      heightFitFactor, if_neg (not_lt.mpr hc2)] at hlt
    simp at hlt
  · rintro (hgt | hgt)
    · exact lt_of_le_of_lt (min_le_left _ _)
        (widthFitFactor_lt_one base w hw len1 hgt)
    · exact lt_of_le_of_lt (min_le_right _ _)
        (heightFitFactor_lt_one base h hh hgt)

/-- Witness for the amended C5 at base scale 1, viewport 100 × 100,
word lengths 1 and 2. -/
theorem claim_C5_wordScale_amended_witness :
    (0 : ℚ) ≤ 1 ∧ (0 : ℚ) ≤ 100 ∧ (0 : ℚ) ≤ 100 ∧ 1 ≤ 2 ∧
    (wordScaleFactorOf 1 100 100 1 ≤ 1 ∧
     wordScaleFactorOf 1 100 100 2 ≤ wordScaleFactorOf 1 100 100 1 ∧
     (wordScaleFactorOf 1 100 100 1 < 1 ↔
       ((1 : ℚ) * CHAR_WIDTH_DATA_UNITS * 1 > 100 ∨
         DATA_RANGE_Y * 1 > 100))) :=
  ⟨by norm_num, by norm_num, by norm_num, by norm_num,
   claim_C5_wordScale_amended 1 100 100 1 2 (by norm_num) (by norm_num)
     (by norm_num) (by norm_num)⟩

/-! ### Claim C7 -/

/-- Claim C7: when the character has no glyph-table entry,
`prepareAnimationForCharacter` fails recoverably (no point list, a
failure result, nothing thrown), and the `script.js` controller treats
it as a skip: in one tick it advances the character index, keeps the
reveal cursor at 0, and pushes no completed record — so nothing is ever
rendered for that slot (its point list stays empty) and the tick loop
is not stalled. -/
theorem claim_C7_unknown_glyph (c : Char) (s : AnimState)
    (hc : lookupGlyph tableS c = none)
    (ha : s.active = true) (h : s.idx < s.word.length)
    (hcc : s.word.getD s.idx 'A' = c) (hp : s.points = []) :
    prepareAnimationForCharacter tableS c = none ∧
    tickS s = { s with idx := s.idx + 1, frame := 0, totalFrames := 0 } ∧
    (tickS s).completed = s.completed ∧ (tickS s).points = [] := by
  have hprep : prepareAnimationForCharacter tableS c = none := by
    rw [prepareAnimationForCharacter, hc]
    rfl
  have hnottrue : ¬ (s.active = false) := by
    rw [ha]
    simp
  have htick : tickS s = { s with idx := s.idx + 1, frame := 0, totalFrames := 0 } := by
    rw [tickS, if_neg hnottrue, if_pos h, if_pos hp, hcc, hprep]
  refine ⟨hprep, htick, by rw [htick], by rw [htick]; exact hp⟩

/-- Witness for C7: the character G, absent from the `script.js` table,
as the sole character of the active word. -/
theorem claim_C7_unknown_glyph_witness :
    lookupGlyph tableS 'G' = none ∧
    (⟨['G'], 0, [], 0, 0, true, []⟩ : AnimState).active = true ∧
    (⟨['G'], 0, [], 0, 0, true, []⟩ : AnimState).idx <
      (⟨['G'], 0, [], 0, 0, true, []⟩ : AnimState).word.length ∧
    (prepareAnimationForCharacter tableS 'G' = none ∧
     tickS ⟨['G'], 0, [], 0, 0, true, []⟩ =
       { (⟨['G'], 0, [], 0, 0, true, []⟩ : AnimState) with
          idx := 0 + 1, frame := 0, totalFrames := 0 } ∧
     (tickS ⟨['G'], 0, [], 0, 0, true, []⟩).completed = [] ∧
     (tickS ⟨['G'], 0, [], 0, 0, true, []⟩).points = []) :=
  ⟨by decide, rfl, by decide,
   claim_C7_unknown_glyph 'G' ⟨['G'], 0, [], 0, 0, true, []⟩ (by decide) rfl
     (by decide) rfl rfl⟩

/-! ### Controller invariant (part_000) -/

/-- The completed record for position `i` of word `w`, as the controller
builds it. -/
def recordFor (w : List Char) (i : ℕ) : CompletedGlyph :=
  { char := w.getD i 'A',
    processedPoints := glyphPoints tableP (w.getD i 'A'),
    xOffset := (i : ℚ) * CHAR_WIDTH_DATA_UNITS }

/-- The controller invariant for an animation of word `w`: the word is
fixed; the index never passes the end; the completed set is exactly the
records of the already-finished prefix, in word order; and while a glyph
is active the stored points are its compiled sequence, the frame total
matches their count, and the reveal cursor is strictly below it. -/
def InvP (w : List Char) (s : AnimState) : Prop :=
  s.word = w ∧ s.idx ≤ w.length ∧
  s.completed = (List.range s.idx).map (recordFor w) ∧
  (s.active = true →
    s.idx < w.length ∧
    s.points = glyphPoints tableP (w.getD s.idx 'A') ∧
    s.totalFrames = s.points.length ∧
    s.frame < s.totalFrames)

theorem applyPrepare_some (tbl : List (Char × List Segment)) (s : AnimState)
    (c : Char) (segs : List Segment) (h : lookupGlyph tbl c = some segs) :
    applyPrepare tbl s c =
      { s with points := compileGlyph segs,
               totalFrames := (compileGlyph segs).length, frame := 0 } := by
  simp [applyPrepare, prepareAnimationForCharacter, h]

theorem getD_mem_of_lt (l : List Char) (n : ℕ) (d : Char)
    (h : n < l.length) : l.getD n d ∈ l := by
  rw [List.getD_eq_getElem?_getD, List.getElem?_eq_getElem h]
  exact List.getElem_mem h

theorem glyphPoints_pos_of_isSome (c : Char)
    (h : (lookupGlyph tableP c).isSome) :
    0 < (glyphPoints tableP c).length := by
  obtain ⟨h1, -⟩ := glyphPointsP_props c h
  exact List.length_pos.mpr h1

theorem startAnim_inv (w : List Char)
    (hw : ∀ c ∈ w, (lookupGlyph tableP c).isSome) (hne : w ≠ []) :
    InvP w (startAnim w) := by
  obtain ⟨c, rest, rfl⟩ : ∃ c rest, w = c :: rest := by
    cases w with
    | nil => exact absurd rfl hne
    | cons c rest => exact ⟨c, rest, rfl⟩
  have hsome : (lookupGlyph tableP c).isSome := hw c (List.mem_cons_self c rest)
  obtain ⟨segs, hsegs⟩ := Option.isSome_iff_exists.mp hsome
  rw [startAnim, List.headD_cons, applyPrepare_some tableP _ c segs hsegs]
  refine ⟨rfl, by simp, rfl, fun _ => ⟨by simp, ?_, rfl, ?_⟩⟩
  · rw [List.getD_cons_zero, glyphPoints_eq tableP c segs hsegs]
  · rw [← glyphPoints_eq tableP c segs hsegs]
    exact glyphPoints_pos_of_isSome c hsome

theorem tick_inv (w : List Char)
    (hw : ∀ c ∈ w, (lookupGlyph tableP c).isSome)
    (s : AnimState) (hs : InvP w s) : InvP w (tick s) := by
  obtain ⟨hword, hidx, hcomp, hact⟩ := hs
  by_cases ha : s.active = true
  case neg =>
    have haf : s.active = false := by
      revert ha
      cases s.active <;> simp
    rw [tick, if_pos haf]
    exact ⟨hword, hidx, hcomp, hact⟩
  case pos =>
    obtain ⟨hlt, hpts, htot, hfr⟩ := hact ha
    have hnottrue : ¬ (s.active = false) := by
      rw [ha]
      simp
    have hlt2 : s.idx < s.word.length := by
      rw [hword]
      exact hlt
    have hcur : s.word.getD s.idx 'A' = w.getD s.idx 'A' := by rw [hword]
    have hsome : (lookupGlyph tableP (w.getD s.idx 'A')).isSome :=
      hw _ (getD_mem_of_lt w s.idx 'A' hlt)
    have hpe : ¬ (s.points = []) := by
      rw [hpts]
      exact List.length_pos.mp (glyphPoints_pos_of_isSome _ hsome)
    rw [tick, if_neg hnottrue, if_pos hlt2, if_neg hpe, tickAdvance]
    by_cases hend : s.frame + 1 ≥ s.totalFrames
    case neg =>
      rw [if_neg hend]
      exact ⟨hword, hidx, hcomp, fun _ =>
        ⟨hlt, hpts, htot, show s.frame + 1 < s.totalFrames by omega⟩⟩
    case pos =>
      rw [if_pos hend]
      have hpush : pushRecord s = recordFor w s.idx := by
        rw [pushRecord, recordFor, hword, hpts]
      have hcomp2 : s.completed ++ [pushRecord s] =
          (List.range (s.idx + 1)).map (recordFor w) := by
        rw [hcomp, hpush, List.range_succ, List.map_append, List.map_singleton]
      by_cases h2 : s.idx + 1 < s.word.length
      case pos =>
        rw [if_pos h2]
        have h2w : s.idx + 1 < w.length := by
          rw [← hword]
          exact h2
        have hnext : s.word.getD (s.idx + 1) 'A' = w.getD (s.idx + 1) 'A' := by
          rw [hword]
        have hsome2 : (lookupGlyph tableP (w.getD (s.idx + 1) 'A')).isSome :=
          hw _ (getD_mem_of_lt w (s.idx + 1) 'A' h2w)
        obtain ⟨segs2, hsegs2⟩ := Option.isSome_iff_exists.mp hsome2
        rw [hnext, applyPrepare_some tableP _ _ segs2 hsegs2]
        refine ⟨hword, show s.idx + 1 ≤ w.length by omega, hcomp2,
          fun _ => ⟨h2w, ?_, rfl, ?_⟩⟩
        · rw [glyphPoints_eq tableP _ segs2 hsegs2]
        · rw [← glyphPoints_eq tableP _ segs2 hsegs2]
          exact glyphPoints_pos_of_isSome _ hsome2
      case neg =>
        rw [if_neg h2]
        refine ⟨hword, show s.idx + 1 ≤ w.length by omega, hcomp2,
          fun hcontra => ?_⟩
        exact Bool.noConfusion hcontra

/-- The controller state of `part_000` after `k` effective ticks of an
animation started on word `w`. -/
def reachP (w : List Char) (k : ℕ) : AnimState :=
  tick^[k] (startAnim w)

theorem reachP_inv (w : List Char)
    (hw : ∀ c ∈ w, (lookupGlyph tableP c).isSome) (hne : w ≠ [])
    (k : ℕ) : InvP w (reachP w k) := by
  induction k with
  | zero => exact startAnim_inv w hw hne
  | succ k ih =>
      rw [reachP, Function.iterate_succ_apply']
      exact tick_inv w hw _ ih

theorem tick_step (w : List Char)
    (hw : ∀ c ∈ w, (lookupGlyph tableP c).isSome)
    (s : AnimState) (hs : InvP w s) (ha : s.active = true) :
    (s.frame + 1 = s.points.length →
      (tick s).idx = s.idx + 1 ∧ (tick s).frame = 0 ∧
      (tick s).completed = s.completed ++ [recordFor w s.idx] ∧
      ((tick s).active = true ↔ s.idx + 1 < w.length)) ∧
    (s.frame + 1 < s.points.length →
      tick s = { s with frame := s.frame + 1 }) := by
  obtain ⟨hword, hidx, hcomp, hact⟩ := hs
  obtain ⟨hlt, hpts, htot, hfr⟩ := hact ha
  have hnottrue : ¬ (s.active = false) := by
    rw [ha]
    simp
  have hlt2 : s.idx < s.word.length := by
    rw [hword]
    exact hlt
  have hsome : (lookupGlyph tableP (w.getD s.idx 'A')).isSome :=
    hw _ (getD_mem_of_lt w s.idx 'A' hlt)
  have hpe : ¬ (s.points = []) := by
    rw [hpts]
    exact List.length_pos.mp (glyphPoints_pos_of_isSome _ hsome)
  have hpush : pushRecord s = recordFor w s.idx := by
    rw [pushRecord, recordFor, hword, hpts]
  rw [tick, if_neg hnottrue, if_pos hlt2, if_neg hpe, tickAdvance]
  constructor
  · intro hframe
    have hend : s.frame + 1 ≥ s.totalFrames := by omega
    rw [if_pos hend]
    by_cases h2 : s.idx + 1 < s.word.length
    case pos =>
      have h2w : s.idx + 1 < w.length := by
        rw [← hword]
        exact h2
      have hnext : s.word.getD (s.idx + 1) 'A' = w.getD (s.idx + 1) 'A' := by
        rw [hword]
      obtain ⟨segs2, hsegs2⟩ := Option.isSome_iff_exists.mp
        (hw _ (getD_mem_of_lt w (s.idx + 1) 'A' h2w))
      rw [if_pos h2, hnext, applyPrepare_some tableP _ _ segs2 hsegs2]
      refine ⟨rfl, rfl, ?_, iff_of_true ha h2w⟩
      show s.completed ++ [pushRecord s] = s.completed ++ [recordFor w s.idx]
      rw [hpush]
    case neg =>
      rw [if_neg h2]
      rw [hword] at h2
      refine ⟨rfl, rfl, ?_, iff_of_false (fun hc => Bool.noConfusion hc) h2⟩
      show s.completed ++ [pushRecord s] = s.completed ++ [recordFor w s.idx]
      rw [hpush]
  · intro hframe2
    have hend : ¬ (s.frame + 1 ≥ s.totalFrames) := by omega
    rw [if_neg hend]

/-! ### Claim C3 -/

/-- Claim C3: on every effective tick of the `part_000` controller with
an active glyph, if the reveal cursor is at the last index of the active
point sequence a completed record for the active glyph is pushed and the
controller advances to the next character with cursor 0 — or deactivates
(`Finished`) if no characters remain — and otherwise only the cursor is
incremented.  Consequently, for a word of table characters, the cursor
always stays within `[0, len(points) − 1]` while a glyph is active, and
the completed set is exactly the records of the finished prefix in the
word's left-to-right order. -/
theorem claim_C3_controller (w : List Char)
    (hw : ∀ c ∈ w, (lookupGlyph tableP c).isSome) (hne : w ≠ []) (k : ℕ) :
    ((reachP w k).active = true →
      (reachP w k).frame < (reachP w k).points.length ∧
      (reachP w k).idx < w.length) ∧
    (reachP w k).completed =
      (List.range (reachP w k).idx).map (recordFor w) ∧
    ((reachP w k).active = true →
      (reachP w k).frame + 1 = (reachP w k).points.length →
      (tick (reachP w k)).idx = (reachP w k).idx + 1 ∧
      (tick (reachP w k)).frame = 0 ∧
      (tick (reachP w k)).completed =
        (reachP w k).completed ++ [recordFor w (reachP w k).idx] ∧
      ((tick (reachP w k)).active = true ↔ (reachP w k).idx + 1 < w.length)) ∧
    ((reachP w k).active = true →
      (reachP w k).frame + 1 < (reachP w k).points.length →
      tick (reachP w k) = { reachP w k with frame := (reachP w k).frame + 1 }) := by
  have hInv := reachP_inv w hw hne k
  obtain ⟨hword, hidx, hcomp, hact⟩ := hInv
  refine ⟨?_, hcomp, ?_, ?_⟩
  · intro ha
    obtain ⟨hlt, hpts, htot, hfr⟩ := hact ha
    exact ⟨by omega, hlt⟩
  · intro ha
    exact (tick_step w hw (reachP w k) ⟨hword, hidx, hcomp, hact⟩ ha).1
  · intro ha
    exact (tick_step w hw (reachP w k) ⟨hword, hidx, hcomp, hact⟩ ha).2

/-- Witness for C3: the one-character word J after 2 ticks. -/
theorem claim_C3_controller_witness :
    (∀ c ∈ ['J'], (lookupGlyph tableP c).isSome) ∧ (['J'] : List Char) ≠ [] ∧
    (((reachP ['J'] 2).active = true →
      (reachP ['J'] 2).frame < (reachP ['J'] 2).points.length ∧
      (reachP ['J'] 2).idx < (['J'] : List Char).length) ∧
     (reachP ['J'] 2).completed =
       (List.range (reachP ['J'] 2).idx).map (recordFor ['J']) ∧
     ((reachP ['J'] 2).active = true →
      (reachP ['J'] 2).frame + 1 = (reachP ['J'] 2).points.length →
      (tick (reachP ['J'] 2)).idx = (reachP ['J'] 2).idx + 1 ∧
      (tick (reachP ['J'] 2)).frame = 0 ∧
      (tick (reachP ['J'] 2)).completed =
        (reachP ['J'] 2).completed ++ [recordFor ['J'] (reachP ['J'] 2).idx] ∧
      ((tick (reachP ['J'] 2)).active = true ↔
        (reachP ['J'] 2).idx + 1 < (['J'] : List Char).length)) ∧
     ((reachP ['J'] 2).active = true →
      (reachP ['J'] 2).frame + 1 < (reachP ['J'] 2).points.length →
      tick (reachP ['J'] 2) =
        { reachP ['J'] 2 with frame := (reachP ['J'] 2).frame + 1 })) :=
  ⟨by decide, by decide, claim_C3_controller ['J'] (by decide) (by decide) 2⟩

/-! ### Claims C4 and C9 -/

theorem filteredWord_headD_isSome (input : List Char)
    (hne : filteredWord input ≠ []) :
    (lookupGlyph tableP ((filteredWord input).headD 'A')).isSome := by
  have hmem : (filteredWord input).headD 'A' ∈ filteredWord input := by
    cases hfe : filteredWord input with
    | nil => exact absurd hfe hne
    | cons a l =>
        rw [List.headD_cons]
        exact List.mem_cons_self a l
  rw [filteredWord] at hmem
  have h2 := List.of_mem_filter hmem
  rw [filteredWord]
  exact h2

/-- Claim C4: submitting a new word while an animation is in progress
cancels the pending scheduled tick before scheduling anything new (the
command trace is exactly cancel-then-schedule), removes the old callback
from the host's pending set so that firing it afterwards mutates nothing,
discards the in-flight word's progress unconditionally (index and cursor
reset to 0) and clears the completed set, so only the new word animates
from cursor 0. -/
theorem claim_C4_submit_cancel (input : List Char) (w h : ℚ)
    (newId oldId nid : ℕ) (s : FullState)
    (hid : s.animationFrameId = some oldId)
    (hpend : s.pending = [oldId])
    (hne : filteredWord input ≠ [])
    (hfresh : newId ≠ oldId) :
    (submitHandler input w h newId s).2 =
      [HostCmd.cancelFrame oldId, HostCmd.scheduleFrame newId] ∧
    oldId ∉ (submitHandler input w h newId s).1.pending ∧
    runCallback (submitHandler input w h newId s).1 oldId nid =
      (submitHandler input w h newId s).1 ∧
    (submitHandler input w h newId s).1.anim.completed = [] ∧
    (submitHandler input w h newId s).1.anim.idx = 0 ∧
    (submitHandler input w h newId s).1.anim.frame = 0 ∧
    (submitHandler input w h newId s).1.anim.word = filteredWord input := by
  obtain ⟨segs0, hsegs0⟩ := Option.isSome_iff_exists.mp
    (filteredWord_headD_isSome input hne)
  have hpr : prepareAnimationForCharacter tableP
      ((filteredWord input).headD 'A') = some (compileGlyph segs0) := by
    rw [prepareAnimationForCharacter, hsegs0]
    rfl
  have hmm : oldId ∉ ([newId] : List ℕ) := by
    simp [Ne.symm hfresh]
  have hsub : submitHandler input w h newId s =
      ({ anim := { word := filteredWord input, idx := 0,
                   points := compileGlyph segs0,
                   totalFrames := (compileGlyph segs0).length, frame := 0,
                   active := true, completed := [] },
         animationFrameId := some newId, pending := [newId],
         currentCanvasWidth := w, currentCanvasHeight := h,
         baseScale := updateBaseScale w h,
         wordScaleFactor :=
           wordScaleFactorOf (updateBaseScale w h) w h
             (filteredWord input).length,
         centerXOffsetPixels :=
           (centerOffsetsOf (updateBaseScale w h) w h
             (filteredWord input).length).1,
         centerYOffsetPixels :=
           (centerOffsetsOf (updateBaseScale w h) w h
             (filteredWord input).length).2 },
       [HostCmd.cancelFrame oldId, HostCmd.scheduleFrame newId]) := by
    simp only [submitHandler, hid, hpend, if_neg hne, hpr,
      List.erase_cons_head, List.nil_append, List.singleton_append]
  rw [hsub]
  refine ⟨rfl, hmm, ?_, rfl, rfl, rfl, rfl⟩
  rw [runCallback, if_neg]
  exact hmm

/-- Witness for C4: submitting the word "a" while a one-character
animation is pending under callback id 5, with fresh id 6. -/
theorem claim_C4_submit_cancel_witness :
    (⟨⟨['J'], 0, [], 0, 3, true, []⟩, some 5, [5], 9, 9, 1, 1, 0, 0⟩ :
        FullState).animationFrameId = some 5 ∧
    (⟨⟨['J'], 0, [], 0, 3, true, []⟩, some 5, [5], 9, 9, 1, 1, 0, 0⟩ :
        FullState).pending = [5] ∧
    filteredWord ['a'] ≠ [] ∧ 6 ≠ 5 ∧
    ((submitHandler ['a'] 9 9 6
        ⟨⟨['J'], 0, [], 0, 3, true, []⟩, some 5, [5], 9, 9, 1, 1, 0, 0⟩).2 =
      [HostCmd.cancelFrame 5, HostCmd.scheduleFrame 6] ∧
     5 ∉ (submitHandler ['a'] 9 9 6
        ⟨⟨['J'], 0, [], 0, 3, true, []⟩, some 5, [5], 9, 9, 1, 1, 0, 0⟩).1.pending ∧
     runCallback (submitHandler ['a'] 9 9 6
        ⟨⟨['J'], 0, [], 0, 3, true, []⟩, some 5, [5], 9, 9, 1, 1, 0, 0⟩).1 5 7 =
       (submitHandler ['a'] 9 9 6
        ⟨⟨['J'], 0, [], 0, 3, true, []⟩, some 5, [5], 9, 9, 1, 1, 0, 0⟩).1 ∧
     (submitHandler ['a'] 9 9 6
        ⟨⟨['J'], 0, [], 0, 3, true, []⟩, some 5, [5], 9, 9, 1, 1, 0, 0⟩).1.anim.completed = [] ∧
     (submitHandler ['a'] 9 9 6
        ⟨⟨['J'], 0, [], 0, 3, true, []⟩, some 5, [5], 9, 9, 1, 1, 0, 0⟩).1.anim.idx = 0 ∧
     (submitHandler ['a'] 9 9 6
        ⟨⟨['J'], 0, [], 0, 3, true, []⟩, some 5, [5], 9, 9, 1, 1, 0, 0⟩).1.anim.frame = 0 ∧
     (submitHandler ['a'] 9 9 6
        ⟨⟨['J'], 0, [], 0, 3, true, []⟩, some 5, [5], 9, 9, 1, 1, 0, 0⟩).1.anim.word =
       filteredWord ['a']) :=
  ⟨rfl, rfl, by with_unfolding_all decide, by decide,
   claim_C4_submit_cancel ['a'] 9 9 6 5 7
     ⟨⟨['J'], 0, [], 0, 3, true, []⟩, some 5, [5], 9, 9, 1, 1, 0, 0⟩
     rfl rfl (by with_unfolding_all decide) (by decide)⟩

/-- Claim C9: re-submitting the same input with the same viewport
reproduces the same animation regardless of the previous global state:
the controller restarts at frame 0, and after any number `k` of ticks
the whole animation state (word, index, cursor, points, completed set
with its point sequences and slot offsets) is identical between the two
runs. -/
theorem claim_C9_resubmit (input : List Char) (w h : ℚ)
    (newId1 newId2 : ℕ) (s1 s2 : FullState) (k : ℕ)
    (hne : filteredWord input ≠ []) :
    (submitHandler input w h newId1 s1).1.anim.frame = 0 ∧
    tick^[k] (submitHandler input w h newId1 s1).1.anim =
      tick^[k] (submitHandler input w h newId2 s2).1.anim := by
  obtain ⟨segs0, hsegs0⟩ := Option.isSome_iff_exists.mp
    (filteredWord_headD_isSome input hne)
  have hpr : prepareAnimationForCharacter tableP
      ((filteredWord input).headD 'A') = some (compileGlyph segs0) := by
    rw [prepareAnimationForCharacter, hsegs0]
    rfl
  have hanim : (submitHandler input w h newId1 s1).1.anim =
      (submitHandler input w h newId2 s2).1.anim := by
    simp only [submitHandler, if_neg hne, hpr]
  refine ⟨?_, by rw [hanim]⟩
  simp only [submitHandler, if_neg hne, hpr]

/-- Witness for C9: re-submitting the word "j" over two different prior
states, compared after 2 ticks. -/
theorem claim_C9_resubmit_witness :
    filteredWord ['j'] ≠ [] ∧
    ((submitHandler ['j'] 9 9 1
        ⟨⟨['A'], 0, [], 0, 3, true, []⟩, some 5, [5], 9, 9, 1, 1, 0, 0⟩).1.anim.frame = 0 ∧
     tick^[2] (submitHandler ['j'] 9 9 1
        ⟨⟨['A'], 0, [], 0, 3, true, []⟩, some 5, [5], 9, 9, 1, 1, 0, 0⟩).1.anim =
       tick^[2] (submitHandler ['j'] 9 9 2
        ⟨⟨[], 0, [], 0, 0, false, []⟩, none, [], 0, 0, 0, 1, 0, 0⟩).1.anim) :=
  ⟨by with_unfolding_all decide,
   claim_C9_resubmit ['j'] 9 9 1 2
     ⟨⟨['A'], 0, [], 0, 3, true, []⟩, some 5, [5], 9, 9, 1, 1, 0, 0⟩
     ⟨⟨[], 0, [], 0, 0, false, []⟩, none, [], 0, 0, 0, 1, 0, 0⟩ 2
     (by with_unfolding_all decide)⟩

end TurtleStitch
